import Mathlib

/-!
Shallow embedding of the question-buffer, session-queue and layout-manager
logic of the quiz-game repository (`src/components/GameScreen.tsx`,
`src/services/AuthService.ts` / `src/lib/UserDataStructures.ts`,
`src/lib/LayoutManager.ts`), together with theorems settling the frozen
claims about the specification.

The random question generator `generateQuestion(difficulty)` is modelled as
a stream `gen : Nat → α` together with a next-index counter: each call to
the generator consumes exactly one stream index, so the counter also counts
generator invocations.
-/

namespace GameSpec

/-- Modelled from the spec: the FIFO question buffer class of
`src/lib/Queue.ts`, whose source file is absent from the repository snapshot
(only its callers in `GameScreen.tsx` and the data-structure documentation
are present). Per the spec, the buffer holds an ordered sequence of pending
items; the head of the list is the oldest (next to be dequeued) and new
items are appended at the tail. -/
structure Queue (α : Type) where
  items : List α
deriving Repr, DecidableEq

/-- Modelled from the spec: `new Queue()` — a freshly constructed, empty buffer. -/
def Queue.new (α : Type) : Queue α := ⟨[]⟩

/-- Modelled from the spec: `enqueue()` appends an item at the tail. -/
def Queue.enqueue (q : Queue α) (x : α) : Queue α := ⟨q.items ++ [x]⟩

/-- Modelled from the spec: `dequeue()` removes and returns the head (oldest)
item, or returns nothing (JS `undefined`) on an empty buffer. -/
def Queue.dequeue (q : Queue α) : Option α × Queue α :=
  match q.items with
  | [] => (none, q)
  | x :: xs => (some x, ⟨xs⟩)

/-- Modelled from the spec: `size()` — the pending count. -/
def Queue.size (q : Queue α) : Nat := q.items.length

/-- Modelled from the spec: `isEmpty()`. -/
def Queue.isEmpty (q : Queue α) : Bool := q.items.isEmpty

/-- `populateQueue` from `GameScreen.tsx` lines 218–223:

```
while (queue.size() < 8) { queue.enqueue(generateQuestion(difficulty)); }
```

The capacity `8` of the call site is kept as the parameter `cap`, and the
random generator is the stream `gen` with next index `k`; the updated next
index is returned alongside the filled queue. -/
def populateQueue (cap : Nat) (gen : Nat → α) (k : Nat) (q : Queue α) :
    Queue α × Nat :=
  if h : q.size < cap then
    populateQueue cap gen (k + 1) (q.enqueue (gen k))
  else
    (q, k)
termination_by cap - q.size
decreasing_by
  simp only [Queue.enqueue, Queue.size, List.length_append, List.length_cons,
    List.length_nil] at *
  omega

/-- `advanceQuestion` from `GameScreen.tsx` lines 225–232:

```
if (queue.isEmpty()) { populateQueue(); }
const next = queue.dequeue();
setCurrentQuestion(next ?? generateQuestion(difficulty));
```

Returns the question handed to `setCurrentQuestion`, the remaining queue,
and the updated generator index (the `?? generateQuestion(difficulty)`
fallback consumes one further generator draw). -/
def advanceQuestion (cap : Nat) (gen : Nat → α) (k : Nat) (q : Queue α) :
    α × Queue α × Nat :=
  let filled := if q.isEmpty then populateQueue cap gen k q else (q, k)
  match filled.1.dequeue with
  | (some x, q2) => (x, q2, filled.2)
  | (none, q2) => (gen filled.2, q2, filled.2 + 1)

/-- The queue-relevant part of `resetGameState` (`GameScreen.tsx` lines
234–249): the old queue is discarded wholesale
(`questionQueue.current = new Queue<Question>()`), then `populateQueue()`
and `advanceQuestion()` run against the fresh buffer with the (possibly
new-difficulty) generator. -/
def resetGameStateQueue (cap : Nat) (gen : Nat → α) : α × Queue α × Nat :=
  let filled := populateQueue cap gen 0 (Queue.new α)
  advanceQuestion cap gen filled.2 filled.1

/-- Repeatedly dequeue `n` times from a buffer, collecting the items
actually returned (in order). -/
def drainN : Nat → Queue α → List α × Queue α
  | 0, q => ([], q)
  | n + 1, q =>
    match q.dequeue with
    | (some x, q1) =>
        let rest := drainN n q1
        (x :: rest.1, rest.2)
    | (none, q1) => ([], q1)

/-- Iterate `advanceQuestion` `n` times from generator index `k`,
collecting the questions shown. -/
def advanceN (cap : Nat) (gen : Nat → α) : Nat → Nat → Queue α → List α × Queue α × Nat
  | 0, k, q => ([], q, k)
  | n + 1, k, q =>
    let step := advanceQuestion cap gen k q
    let rest := advanceN cap gen n step.2.2 step.2.1
    (step.1 :: rest.1, rest.2)

/-! ### Basic lemmas about the buffer operations -/

theorem Queue.size_enqueue (q : Queue α) (x : α) :
    (q.enqueue x).size = q.size + 1 := by
  simp [Queue.enqueue, Queue.size]

theorem Queue.isEmpty_iff (q : Queue α) : q.isEmpty = true ↔ q.items = [] := by
  simp [Queue.isEmpty, List.isEmpty_iff]

/-- Closed form of `populateQueue`, by induction on the deficit
`cap - q.size`: the loop appends `gen k, gen (k+1), …` at the tail until
the length reaches `cap`, consuming `cap - q.size` generator draws. -/
theorem populateQueue_closed_aux (cap : Nat) (gen : Nat → α) :
    ∀ (d k : Nat) (q : Queue α), cap - q.size = d →
      populateQueue cap gen k q =
        (⟨q.items ++ (List.range (cap - q.size)).map (fun i => gen (k + i))⟩,
          k + (cap - q.size)) := by
  intro d
  induction d with
  | zero =>
    intro k q hd
    rw [populateQueue]
    have : ¬ q.size < cap := by omega
    simp [this, hd]
  | succ n ih =>
    intro k q hd
    have hlt : q.size < cap := by omega
    rw [populateQueue]
    simp only [hlt, dif_pos]
    have hsize : (q.enqueue (gen k)).size = q.size + 1 := Queue.size_enqueue q _
    rw [ih (k + 1) (q.enqueue (gen k)) (by omega)]
    have hq : (q.enqueue (gen k)).items = q.items ++ [gen k] := rfl
    have hcap : cap - (q.enqueue (gen k)).size = n := by rw [hsize]; omega
    have hfun : (fun i => gen (k + 1 + i)) = fun i => gen (k + Nat.succ i) := by
      funext i
      congr 1
      omega
    rw [hq, hcap, hd, List.range_succ_eq_map]
    simp [List.map_map, hfun, List.append_assoc, Function.comp]
    omega

theorem populateQueue_closed (cap : Nat) (gen : Nat → α) (k : Nat) (q : Queue α) :
    populateQueue cap gen k q =
      (⟨q.items ++ (List.range (cap - q.size)).map (fun i => gen (k + i))⟩,
        k + (cap - q.size)) :=
  populateQueue_closed_aux cap gen (cap - q.size) k q rfl

/-- The fill loop tops the buffer up to exactly `max (size) cap` items. -/
theorem populateQueue_size (cap : Nat) (gen : Nat → α) (k : Nat) (q : Queue α) :
    (populateQueue cap gen k q).1.size = max q.size cap := by
  rw [populateQueue_closed]
  simp [Queue.size]
  omega

/-- A buffer already at (or above) capacity is left untouched. -/
theorem populateQueue_of_full (cap : Nat) (gen : Nat → α) (k : Nat)
    (q : Queue α) (h : cap ≤ q.size) : populateQueue cap gen k q = (q, k) := by
  rw [populateQueue_closed]
  have : cap - q.size = 0 := by omega
  simp [this]

theorem drainN_closed (n : Nat) (l : List α) :
    drainN n ⟨l⟩ = (l.take n, ⟨l.drop n⟩) := by
  induction n generalizing l with
  | zero => simp [drainN]
  | succ m ih =>
    cases l with
    | nil => simp [drainN, Queue.dequeue]
    | cons x xs => simp [drainN, Queue.dequeue, ih]

theorem advanceQuestion_cons (cap : Nat) (gen : Nat → α) (k : Nat) (x : α)
    (xs : List α) : advanceQuestion cap gen k ⟨x :: xs⟩ = (x, ⟨xs⟩, k) := by
  simp [advanceQuestion, Queue.isEmpty, Queue.dequeue]

theorem advanceQuestion_empty_zero (gen : Nat → α) (k : Nat) :
    advanceQuestion 0 gen k (⟨[]⟩ : Queue α) = (gen k, ⟨[]⟩, k + 1) := by
  simp [advanceQuestion, Queue.isEmpty, Queue.dequeue, populateQueue_closed,
    Queue.size]

theorem advanceQuestion_empty_pos (cap : Nat) (gen : Nat → α) (k : Nat)
    (h : 0 < cap) :
    advanceQuestion cap gen k (⟨[]⟩ : Queue α) =
      (gen k, ⟨(List.range (cap - 1)).map (fun i => gen (k + 1 + i))⟩, k + cap) := by
  obtain ⟨m, rfl⟩ : ∃ m, cap = m + 1 := ⟨cap - 1, by omega⟩
  have hfun : (fun i => gen (k + 1 + i)) = fun i => gen (k + Nat.succ i) := by
    funext i
    congr 1
    omega
  simp [advanceQuestion, Queue.isEmpty, populateQueue_closed, Queue.size,
    List.range_succ_eq_map, Queue.dequeue, List.map_map, Function.comp, hfun]

/-- One `advanceQuestion` call consumes exactly `1 + (size after − size
before)` generator draws: the generator index satisfies
`k_out + size_in = k_in + 1 + size_out`. -/
theorem advanceQuestion_accounting (cap : Nat) (gen : Nat → α) (k : Nat)
    (q : Queue α) :
    (advanceQuestion cap gen k q).2.2 + q.size =
      k + 1 + (advanceQuestion cap gen k q).2.1.size := by
  obtain ⟨l⟩ := q
  cases l with
  | cons x xs =>
    simp [advanceQuestion_cons, Queue.size]
    omega
  | nil =>
    rcases Nat.eq_zero_or_pos cap with hc | hc
    · subst hc
      simp [advanceQuestion_empty_zero, Queue.size]
    · rw [advanceQuestion_empty_pos cap gen k hc]
      simp [Queue.size]
      omega

theorem advanceQuestion_size_le (cap : Nat) (gen : Nat → α) (k : Nat)
    (q : Queue α) :
    (advanceQuestion cap gen k q).2.1.size ≤ max q.size cap := by
  obtain ⟨l⟩ := q
  cases l with
  | cons x xs => simp [advanceQuestion_cons, Queue.size]
  | nil =>
    rcases Nat.eq_zero_or_pos cap with hc | hc
    · subst hc
      simp [advanceQuestion_empty_zero, Queue.size]
    · rw [advanceQuestion_empty_pos cap gen k hc]
      simp [Queue.size]

theorem advanceN_accounting (cap : Nat) (gen : Nat → α) (n k : Nat)
    (q : Queue α) :
    (advanceN cap gen n k q).2.2 + q.size =
      k + n + (advanceN cap gen n k q).2.1.size := by
  induction n generalizing k q with
  | zero => simp [advanceN]
  | succ m ih =>
    have hstep := advanceQuestion_accounting cap gen k q
    have hrest := ih (advanceQuestion cap gen k q).2.2 (advanceQuestion cap gen k q).2.1
    simp only [advanceN]
    omega

theorem advanceN_size_le (cap : Nat) (gen : Nat → α) (n k : Nat)
    (q : Queue α) :
    (advanceN cap gen n k q).2.1.size ≤ max q.size cap := by
  induction n generalizing k q with
  | zero => simp [advanceN]
  | succ m ih =>
    have hstep := advanceQuestion_size_le cap gen k q
    have hrest := ih (advanceQuestion cap gen k q).2.2 (advanceQuestion cap gen k q).2.1
    simp only [advanceN]
    omega

/-! ### Claim theorems: question buffer -/

/-- C1: the question buffer is FIFO. On a non-empty buffer, `dequeue()`
removes and returns the head (oldest) item, leaving the remaining items in
their prior relative order; consequently any sequence of `n` dequeues
returns exactly the first `n` items in the order `ensureFilled()` appended
them (`l.take n`), leaving the rest (`l.drop n`) in order. -/
theorem dequeue_returns_in_fifo_order (α : Type) :
    (∀ (x : α) (xs : List α), Queue.dequeue ⟨x :: xs⟩ = (some x, ⟨xs⟩)) ∧
    (∀ (n : Nat) (l : List α), drainN n ⟨l⟩ = (l.take n, ⟨l.drop n⟩)) :=
  ⟨fun _ _ => rfl, drainN_closed⟩

/-- C2: whenever the buffer holds fewer than `cap` items (8 at the call
site), `populateQueue` appends generator output at the tail until the
length equals `cap`, so afterwards `size() = cap`; moreover no call ever
grows any buffer past `max size cap`, i.e. never past the target capacity
when the buffer started within it. -/
theorem populateQueue_fills_to_capacity (cap : Nat) (gen : Nat → α) (k : Nat)
    (q : Queue α) (h : q.size < cap) :
    (populateQueue cap gen k q).1.size = cap ∧
    (∃ appended, (populateQueue cap gen k q).1.items = q.items ++ appended) ∧
    ∀ (k' : Nat) (q' : Queue α),
      (populateQueue cap gen k' q').1.size ≤ max q'.size cap := by
  refine ⟨?_, ⟨_, by rw [populateQueue_closed]⟩, fun k' q' => ?_⟩
  · rw [populateQueue_size]
    omega
  · rw [populateQueue_size]

theorem populateQueue_fills_to_capacity_witness :
    (populateQueue 8 (fun i => i) 0 (⟨[]⟩ : Queue Nat)).1.size = 8 ∧
    (∃ appended, (populateQueue 8 (fun i => i) 0 (⟨[]⟩ : Queue Nat)).1.items =
      (⟨[]⟩ : Queue Nat).items ++ appended) ∧
    ∀ (k' : Nat) (q' : Queue Nat),
      (populateQueue 8 (fun i => i) k' q').1.size ≤ max q'.size 8 :=
  populateQueue_fills_to_capacity 8 (fun i => i) 0 ⟨[]⟩ (by decide)

/-- C3: `advanceQuestion` (the consumer-facing dequeue) is total: it always
hands the caller an actual item. On an empty buffer it first runs
`populateQueue` synchronously and returns the head of the refilled buffer
(`gen k`, leaving `cap - 1` pending); in the defensive case where filling
yields nothing (`cap = 0`), it returns a freshly generated item directly
without inserting anything into the sequence (the buffer stays empty). -/
theorem advanceQuestion_total (cap : Nat) (gen : Nat → α) (k : Nat) :
    (∀ q : Queue α, ∃ (x : α) (q' : Queue α) (k' : Nat),
        advanceQuestion cap gen k q = (x, q', k')) ∧
    (0 < cap →
      (advanceQuestion cap gen k (⟨[]⟩ : Queue α)).1 = gen k ∧
      (advanceQuestion cap gen k (⟨[]⟩ : Queue α)).2.1.size = cap - 1) ∧
    advanceQuestion 0 gen k (⟨[]⟩ : Queue α) = (gen k, ⟨[]⟩, k + 1) := by
  refine ⟨fun q => ⟨_, _, _, rfl⟩, fun h => ?_, advanceQuestion_empty_zero gen k⟩
  rw [advanceQuestion_empty_pos cap gen k h]
  simp [Queue.size]

theorem advanceQuestion_total_witness :
    (advanceQuestion 8 (fun i => i) 0 (⟨[]⟩ : Queue Nat)).1 = (fun i => i) 0 ∧
    (advanceQuestion 8 (fun i => i) 0 (⟨[]⟩ : Queue Nat)).2.1.size = 8 - 1 :=
  (advanceQuestion_total 8 (fun i => i) 0).2.1 (by decide)

/-- C4: the spec's concrete scenario with capacity 8 and the fixed
generator sequence `Q1, Q2, …` (modelled as `gen i = i + 1`, so `Qn = n`):
a fresh buffer fills to `[Q1 … Q8]` of size 8; `dequeue` then returns `Q1`
leaving `[Q2 … Q8]` of size 7; refilling (the generator continuing at `Q9`)
yields `[Q2 … Q8, Q9]` by appending at the tail. -/
theorem scenario_fill_dequeue_refill :
    (populateQueue 8 (fun i => i + 1) 0 (Queue.new Nat)).1.items =
      [1, 2, 3, 4, 5, 6, 7, 8] ∧
    (populateQueue 8 (fun i => i + 1) 0 (Queue.new Nat)).1.size = 8 ∧
    Queue.dequeue (populateQueue 8 (fun i => i + 1) 0 (Queue.new Nat)).1 =
      (some 1, ⟨[2, 3, 4, 5, 6, 7, 8]⟩) ∧
    (⟨[2, 3, 4, 5, 6, 7, 8]⟩ : Queue Nat).size = 7 ∧
    (populateQueue 8 (fun i => i + 1)
        (populateQueue 8 (fun i => i + 1) 0 (Queue.new Nat)).2
        ⟨[2, 3, 4, 5, 6, 7, 8]⟩).1.items = [2, 3, 4, 5, 6, 7, 8, 9] := by
  simp only [populateQueue_closed]
  decide

/-- C5: `populateQueue` is idempotent: running it again right after a
first run (with no dequeue in between) returns the buffer unchanged and
consumes no generator draw, and a run never fills past
`max size targetCapacity` (no over-filling beyond the capacity). -/
theorem populateQueue_idempotent (cap : Nat) (gen : Nat → α) (k k' : Nat)
    (q : Queue α) :
    populateQueue cap gen k' (populateQueue cap gen k q).1 =
      ((populateQueue cap gen k q).1, k') ∧
    (populateQueue cap gen k q).1.size = max q.size cap := by
  have hs := populateQueue_size cap gen k q
  exact ⟨populateQueue_of_full cap gen k' _ (by omega), hs⟩

/-- C7: a session reset replaces the buffer with a fresh empty one
(`questionQueue.current = new Queue()`): the new buffer has size 0 and
holds no items, so nothing pending before the reset is reachable through
it; after `resetGameState` refills it, every pending item is an output of
the new-difficulty generator stream. -/
theorem reset_replaces_buffer (α : Type) (cap : Nat) (gen : Nat → α) :
    (Queue.new α).size = 0 ∧
    (Queue.new α).items = [] ∧
    ∃ idxs : List Nat, (resetGameStateQueue cap gen).2.1.items = idxs.map gen := by
  refine ⟨rfl, rfl, ?_⟩
  rcases Nat.eq_zero_or_pos cap with hc | hc
  · subst hc
    exact ⟨[], by simp [resetGameStateQueue, populateQueue_closed, Queue.new,
      advanceQuestion_empty_zero, Queue.size]⟩
  · obtain ⟨m, rfl⟩ : ∃ m, cap = m + 1 := ⟨cap - 1, by omega⟩
    refine ⟨(List.range m).map (fun i => 0 + Nat.succ i), ?_⟩
    simp only [resetGameStateQueue, populateQueue_closed, Queue.new, Queue.size,
      List.length_nil, Nat.sub_zero, List.nil_append, List.range_succ_eq_map,
      List.map_cons, advanceQuestion_cons, List.map_map]
    rfl

/-- C8 counterexample: consumption does pay generation cost synchronously.
A single `advanceQuestion` call on an empty buffer (capacity 8) advances
the generator index from 0 to 8 — eight generator invocations inside the
one consumer-facing call — refuting "never pays generation cost
synchronously with consumption / never observes a generation stall". -/
theorem advanceQuestion_pays_generation_cost :
    (advanceQuestion 8 (fun i => i) 0 (⟨[]⟩ : Queue Nat)).2.2 = 8 ∧
    0 < (advanceQuestion 8 (fun i => i) 0 (⟨[]⟩ : Queue Nat)).2.2 := by
  rw [advanceQuestion_empty_pos 8 (fun i => i) 0 (by omega)]
  exact ⟨rfl, by decide⟩

/-- C8 amended: `dequeue` is O(1) *amortized* in generator invocations:
over any `n` consecutive `advanceQuestion` calls the total number of
generator draws (the index advance) satisfies
`draws + initial size = n + final size`, and is therefore at most
`n + max (initial size) cap` — a constant per call amortized — even though
a single call on an empty buffer draws up to `cap` items synchronously. -/
theorem advanceN_amortized_generation (cap : Nat) (gen : Nat → α) (n k : Nat)
    (q : Queue α) :
    (advanceN cap gen n k q).2.2 + q.size =
      k + n + (advanceN cap gen n k q).2.1.size ∧
    (advanceN cap gen n k q).2.2 ≤ k + n + max q.size cap := by
  have h1 := advanceN_accounting cap gen n k q
  have h2 := advanceN_size_le cap gen n k q
  exact ⟨h1, by omega⟩

/-! ### SessionQueue (`src/lib/UserDataStructures.ts`, re-exported through
`AuthService.ts`): a bounded FIFO for the session history. The TypeScript
`maxSize : number` can be any number, so it is embedded as `Int`. -/

structure SessionQueue (α : Type) where
  items : List α
  maxSize : Int
deriving Repr, DecidableEq

/-- The single error kind the spec ascribes to construction. -/
inductive ConfigError where
  | invalidConfiguration
deriving Repr, DecidableEq

/-- `new SessionQueue(maxSize)` (constructor, `UserDataStructures.ts`):
`this.items = []; this.maxSize = maxSize;`. The body performs no
validation and contains no `throw`, so the `Except` result (used so that a
construction-time failure would be statable) is always `ok`. -/
def SessionQueue.construct (α : Type) (maxSize : Int) :
    Except ConfigError (SessionQueue α) :=
  .ok ⟨[], maxSize⟩

/-- `dequeue()`: `return this.items.shift();` — removes and returns the
head, or returns `undefined` on an empty queue (items unchanged). -/
def SessionQueue.dequeue (q : SessionQueue α) : Option α × SessionQueue α :=
  match q.items with
  | [] => (none, q)
  | x :: xs => (some x, ⟨xs, q.maxSize⟩)

/-- `enqueue(item)`:
`if (this.items.length >= this.maxSize) { this.dequeue(); } this.items.push(item);` -/
def SessionQueue.enqueue (q : SessionQueue α) (x : α) : SessionQueue α :=
  let q1 := if (q.items.length : Int) ≥ q.maxSize then q.dequeue.2 else q
  ⟨q1.items ++ [x], q1.maxSize⟩

/-- `size()`: `return this.items.length;` -/
def SessionQueue.size (q : SessionQueue α) : Nat := q.items.length

/-- An enqueue-or-dequeue call against the session queue. -/
inductive SQOp (α : Type) where
  | enq (x : α)
  | deq
deriving Repr

def applySQOp (q : SessionQueue α) : SQOp α → SessionQueue α
  | .enq x => q.enqueue x
  | .deq => q.dequeue.2

def applySQOps (q : SessionQueue α) (ops : List (SQOp α)) : SessionQueue α :=
  ops.foldl applySQOp q

theorem SessionQueue.maxSize_applySQOp (q : SessionQueue α) (op : SQOp α) :
    (applySQOp q op).maxSize = q.maxSize := by
  cases op with
  | enq x =>
    simp only [applySQOp, SessionQueue.enqueue]
    split
    · obtain ⟨l, m⟩ := q
      cases l <;> rfl
    · rfl
  | deq =>
    obtain ⟨l, m⟩ := q
    cases l <;> rfl

theorem SessionQueue.size_enqueue_le (q : SessionQueue α) (x : α)
    (hm : 1 ≤ q.maxSize) (h : (q.size : Int) ≤ q.maxSize) :
    ((q.enqueue x).size : Int) ≤ q.maxSize := by
  obtain ⟨l, m⟩ := q
  simp only [SessionQueue.enqueue, SessionQueue.size] at *
  split
  · cases l with
    | nil => simp at *; omega
    | cons y ys =>
      simp [SessionQueue.dequeue] at *
      omega
  · simp at *
    omega

theorem SessionQueue.size_dequeue_le (q : SessionQueue α)
    (h : (q.size : Int) ≤ q.maxSize) : ((q.dequeue.2).size : Int) ≤ q.maxSize := by
  obtain ⟨l, m⟩ := q
  cases l with
  | nil => exact h
  | cons y ys =>
    simp [SessionQueue.dequeue, SessionQueue.size] at *
    omega

/-! ### Claim theorems: SessionQueue -/

/-- C10: with `maxSize = m ≥ 1`, the session history is a bounded FIFO:
starting from the freshly constructed queue, after any sequence of
`enqueue`/`dequeue` calls the size never exceeds `m`; and an `enqueue` on a
queue already holding `m` items first discards the oldest item (the head)
and then appends the new item at the tail. -/
theorem sessionQueue_bounded_fifo (m : Int) (hm : 1 ≤ m)
    (ops : List (SQOp α)) :
    ((applySQOps (⟨[], m⟩ : SessionQueue α) ops).size : Int) ≤ m ∧
    ∀ (h : α) (t : List α) (x : α), ((h :: t).length : Int) = m →
      (SessionQueue.enqueue ⟨h :: t, m⟩ x).items = t ++ [x] := by
  constructor
  · have key : ∀ (ops : List (SQOp α)) (q : SessionQueue α),
        q.maxSize = m → ((q.size : Int) ≤ m) →
        ((applySQOps q ops).size : Int) ≤ m := by
      intro ops
      induction ops with
      | nil => intro q _ h; exact h
      | cons op rest ih =>
        intro q hq h
        have hmax := SessionQueue.maxSize_applySQOp q op
        refine ih (applySQOp q op) (by rw [hmax, hq]) ?_
        cases op with
        | enq x =>
          have := SessionQueue.size_enqueue_le q x (hq ▸ hm) (hq ▸ h)
          simpa [applySQOp, hq] using this
        | deq =>
          have := SessionQueue.size_dequeue_le q (hq ▸ h)
          simpa [applySQOp, hq] using this
    refine key ops ⟨[], m⟩ rfl ?_
    simp [SessionQueue.size]
    omega
  · intro h t x hlen
    have hc : m ≤ (t.length : Int) + 1 := by
      simp at hlen
      omega
    simp [SessionQueue.enqueue, SessionQueue.dequeue, SessionQueue.size, hc]

theorem sessionQueue_bounded_fifo_witness :
    ((applySQOps (⟨[], 2⟩ : SessionQueue Nat)
        [SQOp.enq 10, SQOp.enq 20, SQOp.enq 30]).size : Int) ≤ 2 ∧
    (SessionQueue.enqueue (⟨[5, 6], 2⟩ : SessionQueue Nat) 7).items = [6] ++ [7] :=
  ⟨(sessionQueue_bounded_fifo 2 (by decide) _).1,
    (sessionQueue_bounded_fifo 2 (by decide) ([] : List (SQOp Nat))).2 5 [6] 7 (by decide)⟩

/-- C6 counterexample: constructing a session queue with capacity `0` (not
a positive integer) succeeds — the constructor stores the capacity
unvalidated and raises no `InvalidConfiguration` error. -/
theorem construct_zero_capacity_succeeds :
    SessionQueue.construct Nat 0 = .ok ⟨[], 0⟩ := rfl

/-- C6 amended: construction never fails for any capacity, positive or
not: the constructor performs no validation, simply storing the given
`maxSize` with an empty item list, so no `InvalidConfiguration` (nor any
other) error exists at construction time; the queue operations themselves
are likewise total. -/
theorem construct_never_fails (α : Type) (m : Int) :
    SessionQueue.construct α m = .ok ⟨[], m⟩ ∧
    ∀ q : SessionQueue α, ∃ (r : Option α) (q' : SessionQueue α),
      q.dequeue = (r, q') :=
  ⟨rfl, fun _ => ⟨_, _, rfl⟩⟩

/-! ### LayoutManager (`src/lib/LayoutManager.ts`): an array of panel
configurations kept sorted ascending by the integer `order` field.
`Array.prototype.sort` with the comparator `(a, b) => a.order - b.order`
is a stable ascending sort (ECMA-262 requires stability), so it is
embedded as Mathlib's stable `insertionSort` by `order ≤ order`; any
stable sort produces the identical list. -/

inductive Priority where
  | high
  | medium
  | low
deriving Repr, DecidableEq

/-- `PanelConfig` interface from `LayoutManager.ts` (the `minHeight` and
`gridArea` fields are optional in the source). -/
structure PanelConfig where
  id : String
  name : String
  order : Int
  visible : Bool
  priority : Priority
  minHeight : Option Int := none
  gridArea : Option String := none
deriving Repr, DecidableEq

/-- The comparator's ordering: ascending by the integer `order` field. -/
def byOrder (a b : PanelConfig) : Prop := a.order ≤ b.order

instance : DecidableRel byOrder := fun a b => Int.decLe a.order b.order

instance : IsTotal PanelConfig byOrder := ⟨fun a b => Int.le_total a.order b.order⟩

instance : IsTrans PanelConfig byOrder := ⟨fun _ _ _ hab hbc => le_trans hab hbc⟩

/-- `sortPanels()`: `this.panels.sort((a, b) => a.order - b.order)`. -/
def sortPanels (ps : List PanelConfig) : List PanelConfig :=
  ps.insertionSort byOrder

structure LayoutManager where
  panels : List PanelConfig
deriving Repr

/-- `constructor(initialPanels)`: copy the array, then `sortPanels()`. -/
def LayoutManager.make (initialPanels : List PanelConfig) : LayoutManager :=
  ⟨sortPanels initialPanels⟩

/-- `addPanel(panel)`: `this.panels.push(panel); this.sortPanels();`. -/
def LayoutManager.addPanel (m : LayoutManager) (p : PanelConfig) : LayoutManager :=
  ⟨sortPanels (m.panels ++ [p])⟩

/-- `getPanel(panelId)`: `this.panels.find(p => p.id === panelId)`. -/
def LayoutManager.getPanel (m : LayoutManager) (panelId : String) :
    Option PanelConfig :=
  m.panels.find? (fun p => p.id == panelId)

/-- `Object.assign` on the first panel whose id matches (the panel object
returned by `getPanel` is the first match, mutated in place). -/
def updateFirst (panelId : String) (f : PanelConfig → PanelConfig) :
    List PanelConfig → List PanelConfig
  | [] => []
  | p :: ps =>
    if p.id == panelId then f p :: ps else p :: updateFirst panelId f ps

/-- `updatePanel(panelId, updates)`: if the panel exists, merge the updates
into it (`Object.assign`, modelled by an arbitrary update function) and
re-sort, returning `true`; otherwise leave the manager unchanged and
return `false`. -/
def LayoutManager.updatePanel (m : LayoutManager) (panelId : String)
    (f : PanelConfig → PanelConfig) : LayoutManager × Bool :=
  match m.getPanel panelId with
  | some _ => (⟨sortPanels (updateFirst panelId f m.panels)⟩, true)
  | none => (m, false)

/-- `reorderPanel(panelId, newOrder)`: `updatePanel(panelId, { order: newOrder })`. -/
def LayoutManager.reorderPanel (m : LayoutManager) (panelId : String)
    (newOrder : Int) : LayoutManager × Bool :=
  m.updatePanel panelId (fun p => { p with order := newOrder })

/-- `setPanelVisibility(panelId, visible)`: `updatePanel(panelId, { visible })`. -/
def LayoutManager.setPanelVisibility (m : LayoutManager) (panelId : String)
    (visible : Bool) : LayoutManager × Bool :=
  m.updatePanel panelId (fun p => { p with visible := visible })

/-- `removePanel(panelId)`: `findIndex` + `splice` — remove the first panel
with the given id (if any) and report whether one was removed. -/
def LayoutManager.removePanel (m : LayoutManager) (panelId : String) :
    LayoutManager × Bool :=
  (⟨m.panels.eraseP (fun p => p.id == panelId)⟩,
    m.panels.any (fun p => p.id == panelId))

/-- `reset(defaultPanels)`: replace the array and `sortPanels()`. -/
def LayoutManager.reset (defaultPanels : List PanelConfig) : LayoutManager :=
  ⟨sortPanels defaultPanels⟩

/-- `fromJSON(json)`: `this.panels = json.map(p => ({ ...p })); this.sortPanels();`. -/
def LayoutManager.fromJSON (json : List PanelConfig) : LayoutManager :=
  ⟨sortPanels (json.map (fun p => p))⟩

/-- `getVisiblePanels()`: `this.panels.filter(p => p.visible)`. -/
def LayoutManager.getVisiblePanels (m : LayoutManager) : List PanelConfig :=
  m.panels.filter (fun p => p.visible)

/-- `getAllPanels()`: a copy of `this.panels`. -/
def LayoutManager.getAllPanels (m : LayoutManager) : List PanelConfig :=
  m.panels

/-- One mutating call against the layout manager. -/
inductive LayoutOp where
  | add (p : PanelConfig)
  | update (panelId : String) (f : PanelConfig → PanelConfig)
  | reorder (panelId : String) (newOrder : Int)
  | setVisibility (panelId : String) (visible : Bool)
  | remove (panelId : String)
  | resetTo (defaults : List PanelConfig)
  | loadJSON (json : List PanelConfig)

def applyLayoutOp (m : LayoutManager) : LayoutOp → LayoutManager
  | .add p => m.addPanel p
  | .update pid f => (m.updatePanel pid f).1
  | .reorder pid newOrder => (m.reorderPanel pid newOrder).1
  | .setVisibility pid v => (m.setPanelVisibility pid v).1
  | .remove pid => (m.removePanel pid).1
  | .resetTo defaults => LayoutManager.reset defaults
  | .loadJSON json => LayoutManager.fromJSON json

def applyLayoutOps (m : LayoutManager) (ops : List LayoutOp) : LayoutManager :=
  ops.foldl applyLayoutOp m

theorem sorted_sortPanels (ps : List PanelConfig) :
    (sortPanels ps).Sorted byOrder :=
  List.sorted_insertionSort byOrder ps

theorem sorted_eraseP (p : PanelConfig → Bool) (l : List PanelConfig)
    (h : l.Sorted byOrder) : (l.eraseP p).Sorted byOrder :=
  List.Pairwise.sublist (List.eraseP_sublist l) h

theorem sorted_filter (p : PanelConfig → Bool) (l : List PanelConfig)
    (h : l.Sorted byOrder) : (l.filter p).Sorted byOrder :=
  List.Pairwise.sublist (List.filter_sublist l) h

theorem sorted_applyLayoutOp (m : LayoutManager) (op : LayoutOp)
    (h : m.panels.Sorted byOrder) : (applyLayoutOp m op).panels.Sorted byOrder := by
  cases op with
  | add p => exact sorted_sortPanels _
  | update pid f =>
    simp only [applyLayoutOp, LayoutManager.updatePanel]
    split
    · exact sorted_sortPanels _
    · exact h
  | reorder pid newOrder =>
    simp only [applyLayoutOp, LayoutManager.reorderPanel, LayoutManager.updatePanel]
    split
    · exact sorted_sortPanels _
    · exact h
  | setVisibility pid v =>
    simp only [applyLayoutOp, LayoutManager.setPanelVisibility, LayoutManager.updatePanel]
    split
    · exact sorted_sortPanels _
    · exact h
  | remove pid => exact sorted_eraseP _ _ h
  | resetTo defaults => exact sorted_sortPanels _
  | loadJSON json => exact sorted_sortPanels _

/-! ### Claim theorem: LayoutManager -/

/-- C9: the panel array sorted ascending by the integer `order` field is
an invariant of `LayoutManager`: after construction and after any sequence
of mutating operations (`addPanel`, `updatePanel`, `reorderPanel`,
`setPanelVisibility`, `removePanel`, `reset`, `fromJSON`), both
`getAllPanels()` and `getVisiblePanels()` return sequences sorted by
`order`. -/
theorem layoutManager_sorted_invariant (init : List PanelConfig)
    (ops : List LayoutOp) :
    ((applyLayoutOps (LayoutManager.make init) ops).getAllPanels).Sorted byOrder ∧
    ((applyLayoutOps (LayoutManager.make init) ops).getVisiblePanels).Sorted byOrder := by
  have key : ∀ (ops : List LayoutOp) (m : LayoutManager),
      m.panels.Sorted byOrder → (applyLayoutOps m ops).panels.Sorted byOrder := by
    intro ops
    induction ops with
    | nil => intro m h; exact h
    | cons op rest ih =>
      intro m h
      exact ih (applyLayoutOp m op) (sorted_applyLayoutOp m op h)
  have hall : (applyLayoutOps (LayoutManager.make init) ops).panels.Sorted byOrder :=
    key ops (LayoutManager.make init) (sorted_sortPanels init)
  exact ⟨hall, sorted_filter _ _ hall⟩

end GameSpec
